import Mathlib

/-!
Verification of the zk-bridge repository against its specification.

The development shallowly embeds the two components the claims are about:

* the on-chain verification program (`packages/solana-program/src`):
  `verify_ton_event`, `update_ton_root`, `verify_update` and the helper
  checks in `zk_verifier.rs`, modelled as pure state transformers over a
  `ChainState` record; the host ledger's transaction atomicity (an
  instruction that returns an error leaves no account changes behind,
  including `init_if_needed` creations) is modelled by the step function
  returning the pre-state on error;

* the off-chain submission manager (`packages/submission-manager/src`):
  the batch accumulator, the FIFO queue, the retry policy and the failure
  handler, modelled as pure functions over explicit state records.

Byte arrays (`[u8; 32]`, `Pubkey`, proof material) are modelled as
`List Nat`; the SHA-256 based `solana_program::hash::hashv` is kept
abstract as a function parameter `H : List Nat → List Nat` applied to the
exact preimage bytes the source assembles.
-/

/-- Byte strings (`Vec<u8>`, `[u8; N]`, `Pubkey`) are lists of naturals. -/
abbrev Bytes : Type := List Nat

/-- The all-zero 32-byte array `[0u8; 32]`. -/
def zero32 : Bytes := List.replicate 32 0

/-- Little-endian fixed-width byte encoding, as Rust's `to_le_bytes`:
`leBytes n v` is the `n`-byte little-endian encoding of `v`. -/
def leBytes : Nat → Nat → List Nat
  | 0, _ => []
  | n + 1, v => v % 256 :: leBytes n (v / 256)

/-- Every element of the list is the zero byte (`iter().all(|&b| b == 0)`). -/
def allZero (l : List Nat) : Prop := ∀ x ∈ l, x = 0

instance (l : List Nat) : Decidable (allZero l) := List.decidableBAll _ l

/-- ASCII bytes of the domain-separation label `"TON_EVENT"` used by
`hash_event_components` in `zk_verifier.rs`. -/
def tonEventLabel : Bytes := [84, 79, 78, 95, 69, 86, 69, 78, 84]

/-- ASCII bytes of the domain-separation label `"NULLIFIER"` used by
`generate_nullifier` in `zk_verifier.rs`. -/
def nullifierLabel : Bytes := [78, 85, 76, 76, 73, 70, 73, 69, 82]

/-- ASCII bytes of the label `"EVENT"` that the specification's event-id
formula names (`H("EVENT" ∥ ...)`). Modelled from the spec, for comparison
with the label the source actually hashes. -/
def specEventLabel : Bytes := [69, 86, 69, 78, 84]

/-- Error codes of the on-chain program (`ZkError` in `zk_verifier.rs`). -/
inductive ZkError where
  | BadProof
  | SlotGoesBackwards
  | InvalidAnchorRoot
  | EventAlreadyConsumed
  | InvalidAmount
  | InvalidFee
  | InvalidEventId
  | InvalidNullifier
  | InvalidTonTxHash
  | ProductionVerificationNotImplemented
  | UnauthorizedRelayer
  deriving DecidableEq, Repr

/-- Anchor's `require!(cond, err)`: succeed if the condition holds,
abort the instruction with the error otherwise. -/
def requireZk (cond : Prop) [Decidable cond] (e : ZkError) : Except ZkError Unit :=
  if cond then .ok () else .error e

/-- Public inputs of a TON event proof (`EventPublicInputs` in `state.rs`). -/
structure EventPublicInputs where
  domain : Bytes
  anchor_root : Bytes
  event_id : Bytes
  token_id : Bytes
  amount_in_ton : Nat
  recipient_solana : Bytes
  fee_bps : Nat
  vk_version : Nat
  ton_tx_hash : Bytes
  ton_sender : Bytes
  nullifier : Bytes
  deriving DecidableEq, Repr

/-- Structured Groth16-shaped proof (`ZKProof` in `zk_verifier.rs`). -/
structure ZKProof where
  a : Bytes
  b : Bytes
  c : Bytes
  deriving DecidableEq, Repr

/-- Preimage bytes assembled by `hash_event_components`:
`"TON_EVENT" ∥ token_id ∥ amount.to_le_bytes() ∥ recipient ∥
fee_bps.to_le_bytes() ∥ vk_version.to_le_bytes() ∥ domain`. -/
def event_preimage (token_id : Bytes) (amount_in_ton : Nat) (recipient_solana : Bytes)
    (fee_bps : Nat) (vk_version : Nat) (domain : Bytes) : List Nat :=
  tonEventLabel ++ token_id ++ leBytes 8 amount_in_ton ++ recipient_solana ++
    leBytes 2 fee_bps ++ leBytes 4 vk_version ++ domain

/-- Recompute the event id (`ZKVerifier::hash_event_components`), with the
ledger hash function `H` abstract. -/
def hash_event_components (H : List Nat → List Nat) (token_id : Bytes)
    (amount_in_ton : Nat) (recipient_solana : Bytes) (fee_bps : Nat)
    (vk_version : Nat) (domain : Bytes) : Bytes :=
  H (event_preimage token_id amount_in_ton recipient_solana fee_bps vk_version domain)

/-- Modelled from the spec: the event-id formula of §4.6,
`H("EVENT" ∥ token_id ∥ amount ∥ recipient ∥ fee_bps ∥ vk_version ∥ domain)`,
whose preimage starts with the label `"EVENT"` rather than the source's
`"TON_EVENT"`. Defined only to compare the spec's formula with the source. -/
def spec_event_hash (H : List Nat → List Nat) (token_id : Bytes)
    (amount_in_ton : Nat) (recipient_solana : Bytes) (fee_bps : Nat)
    (vk_version : Nat) (domain : Bytes) : Bytes :=
  H (specEventLabel ++ token_id ++ leBytes 8 amount_in_ton ++ recipient_solana ++
    leBytes 2 fee_bps ++ leBytes 4 vk_version ++ domain)

/-- Nullifier derivation helper (`ZKVerifier::generate_nullifier`):
`H("NULLIFIER" ∥ ton_tx_hash ∥ ton_sender)`. -/
def generate_nullifier (H : List Nat → List Nat) (ton_tx_hash ton_sender : Bytes) : Bytes :=
  H (nullifierLabel ++ ton_tx_hash ++ ton_sender)

/-- Public-input validation (`ZKVerifier::validate_public_inputs`), checks in
source order: anchor root match, `0 < amount ≤ 1_000_000_000_000`,
`fee_bps ≤ 1000`, and the recomputed event id. -/
def validate_public_inputs (H : List Nat → List Nat) (pi : EventPublicInputs)
    (current_ton_root : Bytes) : Except ZkError Unit := do
  requireZk (pi.anchor_root = current_ton_root) .InvalidAnchorRoot
  requireZk (pi.amount_in_ton > 0) .InvalidAmount
  requireZk (pi.amount_in_ton ≤ 1000000000000) .InvalidAmount
  requireZk (pi.fee_bps ≤ 1000) .InvalidFee
  requireZk (pi.event_id =
    hash_event_components H pi.token_id pi.amount_in_ton pi.recipient_solana
      pi.fee_bps pi.vk_version pi.domain) .InvalidEventId

/-- Development-mode proof check (`ZKVerifier::mock_verify_proof`):
proof components not all zero, nullifier and TON tx hash nonzero. -/
def mock_verify_proof (proof : ZKProof) (pi : EventPublicInputs) : Except ZkError Unit := do
  requireZk (¬ allZero proof.a ∧ ¬ allZero proof.b ∧ ¬ allZero proof.c) .BadProof
  requireZk (pi.nullifier ≠ zero32) .InvalidNullifier
  requireZk (pi.ton_tx_hash ≠ zero32) .InvalidTonTxHash

/-- The compiled (non-production) path of `ZKVerifier::verify_ton_event_proof`:
validate public inputs, then the mock proof check. The verifying-key bytes are
accepted and ignored, as in the source. -/
def verify_ton_event_proof (H : List Nat → List Nat) (proof : ZKProof)
    (pi : EventPublicInputs) (current_ton_root : Bytes)
    (_verification_key : Bytes) : Except ZkError Unit := do
  validate_public_inputs H pi current_ton_root
  mock_verify_proof proof pi

/-- Account guarding double spends (`NullifierState` in `lib.rs`). -/
structure NullifierState where
  consumed : Bool
  nullifier : Bytes
  ton_tx_hash : Bytes
  deriving DecidableEq, Repr

/-- Per-event account (`EventState` in `state.rs`). -/
structure EventState where
  consumed : Bool
  event_id : Bytes
  recipient : Bytes
  amount : Nat
  ton_tx_hash : Bytes
  ton_sender : Bytes
  deriving DecidableEq, Repr

/-- Global light-client state account (`LcState` in `state.rs`). -/
structure LcState where
  admin : Bytes
  last_verified_slot : Nat
  vk_id : Nat
  ton_state_root : Bytes
  relayer : Bytes
  deriving DecidableEq, Repr

/-- Verifying-key account (`VerifyingKey` in `state.rs`). -/
structure VerifyingKeyAcc where
  vk_id : Nat
  data : Bytes
  deriving DecidableEq, Repr

/-- Zero-initialized nullifier account, as Anchor's `init_if_needed`
creates it before the instruction body runs. -/
def initNullifier : NullifierState := ⟨false, zero32, zero32⟩

/-- Zero-initialized event account created by `init_if_needed`. -/
def initEvent : EventState := ⟨false, zero32, zero32, 0, zero32, zero32⟩

/-- The on-chain state the program's instructions read and write: the
`LcState` and `VerifyingKey` singletons, plus the families of nullifier
accounts (keyed by the 32-byte nullifier seed) and event accounts (keyed
by the event id seed). `none` means the account does not exist. -/
structure ChainState where
  lc : LcState
  vk : VerifyingKeyAcc
  nullifiers : Bytes → Option NullifierState
  events : Bytes → Option EventState

/-- State writes of a successful `verify_ton_event` (`lib.rs` lines 81-93):
the nullifier account is marked consumed and filled in, and the event
account is written with the event's public fields. -/
def apply_verify (s : ChainState) (pi : EventPublicInputs) : ChainState :=
  { s with
    nullifiers := Function.update s.nullifiers pi.nullifier
      (some ⟨true, pi.nullifier, pi.ton_tx_hash⟩),
    events := Function.update s.events pi.event_id
      (some ⟨true, pi.event_id, pi.recipient_solana, pi.amount_in_ton,
        pi.ton_tx_hash, pi.ton_sender⟩) }

/-- The `verify_ton_event` instruction (`lib.rs`): run the proof checks
against the stored TON root, then the nullifier `consumed` guard, then
mark the nullifier consumed and write the event account. Returns the
post-state on success and the error on rejection. -/
def verify_ton_event (H : List Nat → List Nat) (s : ChainState) (proof : ZKProof)
    (pi : EventPublicInputs) : Except ZkError ChainState := do
  verify_ton_event_proof H proof pi s.lc.ton_state_root s.vk.data
  let nullifier_account := (s.nullifiers pi.nullifier).getD initNullifier
  requireZk (¬ nullifier_account.consumed = true) .EventAlreadyConsumed
  pure (apply_verify s pi)

/-- One `verify_ton_event` transaction: on error the host ledger rolls the
whole transaction back (including accounts `init_if_needed` would create),
so the state is unchanged. -/
def verify_event_step (H : List Nat → List Nat) (s : ChainState) (proof : ZKProof)
    (pi : EventPublicInputs) : ChainState :=
  match verify_ton_event H s proof pi with
  | .ok s2 => s2
  | .error _ => s

/-- The `update_ton_root` instruction (`lib.rs`): only the admin or the
authorized relayer may overwrite the stored TON state root. -/
def update_ton_root (s : LcState) (signer : Bytes) (new_ton_root : Bytes) :
    Except ZkError LcState := do
  requireZk (signer = s.admin ∨ signer = s.relayer) .UnauthorizedRelayer
  pure { s with ton_state_root := new_ton_root }

/-- Slot-advance proof check (`verify::verify_mock`): the new slot must
exceed the stored one and every proof byte must be `0xAA`. -/
def verify_mock (proof : Bytes) (old_slot new_slot : Nat) : Except ZkError Unit := do
  requireZk (new_slot > old_slot) .SlotGoesBackwards
  requireZk (∀ b ∈ proof, b = 170) .BadProof

/-- The `verify_update` instruction (`lib.rs`): advance `last_verified_slot`
after the mock slot proof passes. -/
def verify_update (s : LcState) (new_slot : Nat) (proof : Bytes) :
    Except ZkError LcState := do
  verify_mock proof s.last_verified_slot new_slot
  pure { s with last_verified_slot := new_slot }

/-- One transaction against the program: any of its three state-changing
instructions, with arbitrary caller-chosen arguments. -/
inductive ChainOp where
  | verifyEvent (proof : ZKProof) (pi : EventPublicInputs)
  | updateRoot (signer : Bytes) (new_ton_root : Bytes)
  | verifyUpdate (new_slot : Nat) (proof : Bytes)

/-- Transaction semantics of one operation: apply the instruction, rolling
back to the pre-state when it errors. -/
def chain_step (H : List Nat → List Nat) (s : ChainState) : ChainOp → ChainState
  | .verifyEvent proof pi => verify_event_step H s proof pi
  | .updateRoot signer r =>
      match update_ton_root s.lc signer r with
      | .ok lc2 => { s with lc := lc2 }
      | .error _ => s
  | .verifyUpdate sl proof =>
      match verify_update s.lc sl proof with
      | .ok lc2 => { s with lc := lc2 }
      | .error _ => s

/-- Run a sequence of transactions. -/
def chain_run (H : List Nat → List Nat) (s : ChainState) (ops : List ChainOp) : ChainState :=
  ops.foldl (chain_step H) s

/-- The `consumed` flag of the nullifier record keyed by `n` (`false` when
the account does not exist yet). -/
def consumedAt (s : ChainState) (n : Bytes) : Bool :=
  ((s.nullifiers n).getD initNullifier).consumed

/-- Well-formedness of public inputs as imposed by their Rust types:
the `[u8; 32]` fields bound by the event hash have 32 bytes, and the
numeric fields fit `u64` / `u16` / `u32`. -/
def WFInputs (pi : EventPublicInputs) : Prop :=
  pi.token_id.length = 32 ∧ pi.recipient_solana.length = 32 ∧
  pi.domain.length = 32 ∧ pi.amount_in_ton < 256 ^ 8 ∧
  pi.fee_bps < 256 ^ 2 ∧ pi.vk_version < 256 ^ 4

instance (pi : EventPublicInputs) : Decidable (WFInputs pi) := by
  unfold WFInputs; infer_instance

/-- Conjunction of every check `verify_ton_event` runs before it mutates
state, in source order: the four public-input validations, the recomputed
event id, the mock proof sanity checks, and the nullifier guard. -/
def event_checks (H : List Nat → List Nat) (s : ChainState) (proof : ZKProof)
    (pi : EventPublicInputs) : Prop :=
  pi.anchor_root = s.lc.ton_state_root ∧
  pi.amount_in_ton > 0 ∧
  pi.amount_in_ton ≤ 1000000000000 ∧
  pi.fee_bps ≤ 1000 ∧
  pi.event_id = hash_event_components H pi.token_id pi.amount_in_ton
    pi.recipient_solana pi.fee_bps pi.vk_version pi.domain ∧
  (¬ allZero proof.a ∧ ¬ allZero proof.b ∧ ¬ allZero proof.c) ∧
  pi.nullifier ≠ zero32 ∧
  pi.ton_tx_hash ≠ zero32 ∧
  consumedAt s pi.nullifier = false

/-- The six public-input fields the event hash binds
(`token_id`, `amount`, `recipient`, `fee_bps`, `vk_version`, `domain`). -/
def boundFields (pi : EventPublicInputs) : Bytes × Nat × Bytes × Nat × Nat × Bytes :=
  (pi.token_id, pi.amount_in_ton, pi.recipient_solana, pi.fee_bps,
    pi.vk_version, pi.domain)

/-- Authenticity rejections of the verification layer: every `ZkError`
raised by the public-input and proof checks, as opposed to the
double-spend rejection `EventAlreadyConsumed`. -/
def AuthenticityError (e : ZkError) : Prop :=
  e = .InvalidAnchorRoot ∨ e = .InvalidAmount ∨ e = .InvalidFee ∨
  e = .InvalidEventId ∨ e = .BadProof ∨ e = .InvalidNullifier ∨
  e = .InvalidTonTxHash

/-- Deposit handed to the submission manager (`types.rs`). -/
structure Deposit where
  deposit_id : String
  ton_tx_hash : String
  sender_address : String
  recipient_solana : String
  amount : String
  fee_est : String
  nonce : String
  created_at : Nat
  deriving DecidableEq, Repr

/-- A batch of deposits with index-aligned proofs (`types.rs`). The
`chrono::DateTime` creation timestamp is modelled as a natural number. -/
structure Batch where
  deposits : List Deposit
  proofs : List String
  created_at : Nat
  retry_count : Nat
  deriving DecidableEq, Repr

/-- Aggregate queue view (`QueueStats` in `types.rs`). -/
structure QueueStats where
  pending : Nat
  processing : Nat
  completed : Nat
  total : Nat
  deriving DecidableEq, Repr

/-- FIFO of sealed batches (`queue_manager.rs`), backed by a `Vec`. -/
structure QueueManager where
  batches : List Batch
  deriving DecidableEq, Repr

/-- `QueueManager::new`: the empty queue. -/
def QueueManager.new : QueueManager := ⟨[]⟩

/-- `QueueManager::enqueue_batch`: push at the tail (`Vec::push`). -/
def enqueue_batch (q : QueueManager) (batch : Batch) : QueueManager :=
  ⟨q.batches ++ [batch]⟩

/-- `QueueManager::dequeue_batch`: `None` on an empty queue, otherwise
remove and return the head (`Vec::remove(0)`). The mutated receiver is
returned alongside the result. -/
def dequeue_batch (q : QueueManager) : Option Batch × QueueManager :=
  match q.batches with
  | [] => (none, q)
  | b :: rest => (some b, ⟨rest⟩)

/-- `QueueManager::get_queue_stats`: pending and total count deposits
across all queued batches, not batch count. -/
def get_queue_stats (q : QueueManager) : QueueStats :=
  let total_deposits := (q.batches.map (fun b => b.deposits.length)).sum
  ⟨total_deposits, 0, 0, total_deposits⟩

/-- Repeated `dequeue_batch` with explicit fuel. -/
def drainAux : Nat → QueueManager → List Batch
  | 0, _ => []
  | n + 1, q =>
    match dequeue_batch q with
    | (none, _) => []
    | (some b, q2) => b :: drainAux n q2

/-- Drain the queue by dequeuing until empty; the observable dequeue order. -/
def drain (q : QueueManager) : List Batch := drainAux q.batches.length q

/-- Enqueue a list of batches in order. -/
def enqueue_all (q : QueueManager) (bs : List Batch) : QueueManager :=
  bs.foldl enqueue_batch q

/-- Batch accumulator (`batch_manager.rs`): the configured size bound and
at most one open batch. -/
structure BatchManager where
  batch_size : Nat
  current_batch : Option Batch
  deriving DecidableEq, Repr

/-- `BatchManager::new`: no open batch. -/
def BatchManager.new (batch_size : Nat) : BatchManager := ⟨batch_size, none⟩

/-- `BatchManager::add_to_batch`: open a fresh batch if none is open
(created at `now`, `retry_count = 0`), append the deposit/proof pair, and
seal and return the batch once `deposits.len() >= batch_size`, clearing
the open slot (`Option::take`). -/
def add_to_batch (m : BatchManager) (deposit : Deposit) (proof : String)
    (now : Nat) : Option Batch × BatchManager :=
  let m1 : BatchManager :=
    match m.current_batch with
    | none => { m with current_batch := some ⟨[], [], now, 0⟩ }
    | some _ => m
  match m1.current_batch with
  | some batch =>
    let batch2 : Batch := { batch with
      deposits := batch.deposits ++ [deposit],
      proofs := batch.proofs ++ [proof] }
    if batch2.deposits.length ≥ m1.batch_size then
      (some batch2, { m1 with current_batch := none })
    else
      (none, { m1 with current_batch := some batch2 })
  | none => (none, m1)

/-- `BatchManager::finalize_batch`: unconditional `Option::take`. -/
def finalize_batch (m : BatchManager) : Option Batch × BatchManager :=
  (m.current_batch, { m with current_batch := none })

/-- `BatchManager::finalize_if_stale`: seal and return the open batch when
`now - created_at > max_age`, otherwise leave it open. -/
def finalize_if_stale (m : BatchManager) (now max_age : Nat) :
    Option Batch × BatchManager :=
  match m.current_batch with
  | some batch =>
    if now - batch.created_at > max_age then
      (some batch, { m with current_batch := none })
    else
      (none, m)
  | none => (none, m)

/-- One call against the batch accumulator: an `add_to_batch` at some
time, a manual flush, or a staleness sweep. -/
inductive BMOp where
  | add (deposit : Deposit) (proof : String) (now : Nat)
  | finalizeNow
  | finalizeStale (now : Nat) (max_age : Nat)
  deriving DecidableEq, Repr

/-- Dispatch one accumulator operation. -/
def bm_step (m : BatchManager) : BMOp → Option Batch × BatchManager
  | .add d p now => add_to_batch m d p now
  | .finalizeNow => finalize_batch m
  | .finalizeStale now max_age => finalize_if_stale m now max_age

/-- Run a sequence of accumulator operations, collecting every sealed
batch together with the operation that sealed it. -/
def bm_run (m : BatchManager) : List BMOp → List (BMOp × Batch) × BatchManager
  | [] => ([], m)
  | op :: ops =>
    let r := bm_step m op
    let rest := bm_run r.2 ops
    (match r.1 with
     | some b => (op, b) :: rest.1
     | none => rest.1, rest.2)

/-- Retry policy (`retry_engine.rs`). -/
structure RetryEngine where
  max_retries : Nat
  deriving DecidableEq, Repr

/-- `RetryEngine::should_retry`: `current_retries < max_retries`. -/
def RetryEngine.should_retry (r : RetryEngine) (current_retries : Nat) : Bool :=
  current_retries < r.max_retries

/-- External per-deposit status row (`database.rs`), reduced to the fields
`handle_batch_submission_failure` writes: status and error message. -/
structure DepositStatus where
  status : String
  error_message : Option String
  deriving DecidableEq, Repr

/-- `DatabaseService::update_deposit_status` on the status map. -/
def update_deposit_status (db : String → DepositStatus) (deposit_id status : String)
    (error_message : Option String) : String → DepositStatus :=
  fun x => if x = deposit_id then ⟨status, error_message⟩ else db x

/-- The submission pipeline's mutable state relevant to retry handling:
the FIFO of sealed batches and the external deposit-status store. -/
structure SubState where
  queue : QueueManager
  db : String → DepositStatus

/-- `SubmissionManager::handle_batch_submission_failure`: when
`should_retry(batch.retry_count)` holds, re-enqueue the batch at the tail
with `retry_count` incremented; otherwise mark every contained deposit
failed with the terminating error recorded and drop the batch. -/
def handle_batch_submission_failure (max_retries : Nat) (st : SubState)
    (batch : Batch) (error : String) : SubState :=
  if (RetryEngine.mk max_retries).should_retry batch.retry_count then
    let retry_batch : Batch := { batch with retry_count := batch.retry_count + 1 }
    { st with queue := enqueue_batch st.queue retry_batch }
  else
    let msg : String := "Max retries exceeded: " ++ error
    let db2 : String → DepositStatus :=
      batch.deposits.foldl
        (fun db d => update_deposit_status db d.deposit_id "failed" (some msg)) st.db
    { st with db := db2 }

/-- One tick of `process_queued_batches` in which the chain submission
fails with `error`: dequeue the head batch (no-op when the queue is
empty) and run the failure handler on it. -/
def fail_tick (max_retries : Nat) (st : SubState) (error : String) : SubState :=
  match dequeue_batch st.queue with
  | (none, _) => st
  | (some b, q2) => handle_batch_submission_failure max_retries
      { st with queue := q2 } b error

/-- `n` consecutive failing pipeline ticks. -/
def fail_run (max_retries : Nat) (error : String) : Nat → SubState → SubState
  | 0, st => st
  | n + 1, st => fail_run max_retries error n (fail_tick max_retries st error)

/-- Runtime configuration (`OrchestratorConfig` in `types.rs`). -/
structure OrchestratorConfig where
  batch_size : Nat
  max_retries : Nat
  health_check_interval : Nat
  gas_update_interval : Nat
  validator_count : Nat
  validators : List String
  solana_rpc_url : String
  solana_program_id : String
  solana_bridge_account : String
  verification_key : String
  deriving DecidableEq, Repr

/-- The submission manager (`lib.rs`), restricted to the state its clone
and claims observe: the batch accumulator, the retry policy, the queue,
the configuration and the running flag. The external collaborators it
also holds (database, chain client, prover, metrics) are out of scope. -/
structure SubmissionManager where
  batch_manager : BatchManager
  retry_engine : RetryEngine
  queue_manager : QueueManager
  config : OrchestratorConfig
  is_running : Bool
  deriving DecidableEq, Repr

/-- `impl Clone for SubmissionManager` (`lib.rs` lines 331-348): the batch
accumulator is rebuilt fresh from `config.batch_size` (so the clone's
open-batch slot is empty), while the queue, retry engine, configuration
and running flag are copied by value. -/
def SubmissionManager.clone (m : SubmissionManager) : SubmissionManager :=
  { batch_manager := BatchManager.new m.config.batch_size,
    retry_engine := m.retry_engine,
    queue_manager := m.queue_manager,
    config := m.config,
    is_running := m.is_running }

/-- Enqueue a sealed batch through the manager, as `add_deposit`,
`finalize_stale_batch` and `finalize_current_batch` do. -/
def SubmissionManager.enqueue (m : SubmissionManager) (b : Batch) : SubmissionManager :=
  { m with queue_manager := enqueue_batch m.queue_manager b }

/-- The manager value the background loop spawned by
`start_batch_processing` captures and operates on: `self.clone()`
(`lib.rs` line 173), not the original manager. -/
def start_batch_processing (m : SubmissionManager) : SubmissionManager :=
  m.clone

/-- Concrete 32-byte values used to exercise the definitions. -/
def adminPk : Bytes := List.replicate 32 7

def relayerPk : Bytes := List.replicate 32 8

def tok0 : Bytes := List.replicate 32 1

def rcpt0 : Bytes := List.replicate 32 2

def dom0 : Bytes := List.replicate 32 3

def tx0 : Bytes := 4 :: List.replicate 31 0

def snd0 : Bytes := 5 :: List.replicate 31 0

def nul0 : Bytes := 6 :: List.replicate 31 0

def nul1 : Bytes := 10 :: List.replicate 31 0

def root0 : Bytes := List.replicate 32 9

/-- An event id computed exactly as the program recomputes it (hash kept
as the identity function on the preimage bytes). -/
def eid0 : Bytes := event_preimage tok0 1 rcpt0 0 0 dom0

def pi0 : EventPublicInputs :=
  ⟨dom0, root0, eid0, tok0, 1, rcpt0, 0, 0, tx0, snd0, nul0⟩

/-- `pi0` with one bound field (the amount) mutated, `event_id` kept. -/
def pi0m : EventPublicInputs := { pi0 with amount_in_ton := 2 }

/-- `pi0` with a zero amount. -/
def pi0z : EventPublicInputs := { pi0 with amount_in_ton := 0 }

def proof0 : ZKProof :=
  ⟨List.replicate 64 1, List.replicate 128 1, List.replicate 64 1⟩

def lc0 : LcState := ⟨adminPk, 0, 0, root0, relayerPk⟩

def s0 : ChainState := ⟨lc0, ⟨0, []⟩, fun _ => none, fun _ => none⟩

/-- State after one successful verification of `pi0`. -/
def post0 : ChainState := apply_verify s0 pi0

/-- A state with one already-consumed nullifier record. -/
def s0c : ChainState :=
  { s0 with nullifiers := fun n => if n = nul0 then some ⟨true, nul0, tx0⟩ else none }

def d1 : Deposit := ⟨"d1", "t1", "s1", "r1", "1", "0", "0", 0⟩

def d2 : Deposit := ⟨"d2", "t2", "s2", "r2", "2", "0", "0", 5⟩

def b1 : Batch := ⟨[d1], ["p1"], 0, 0⟩

def b2x : Batch := ⟨[d1, d2], ["p1", "p2"], 0, 0⟩

def db0c : String → DepositStatus := fun _ => ⟨"pending", none⟩

def ops0 : List BMOp := [BMOp.add d1 "p1" 0, BMOp.add d2 "p2" 5]

@[simp]
theorem requireZk_bind {α : Type} (c : Prop) [Decidable c] (e : ZkError)
    (f : Unit → Except ZkError α) :
    (requireZk c e >>= f) = if c then f () else .error e := by
  by_cases h : c <;> simp [requireZk, h] <;> rfl

@[simp]
theorem requireZk_map {α : Type} (c : Prop) [Decidable c] (e : ZkError)
    (f : Unit → α) :
    (f <$> requireZk c e) = if c then .ok (f ()) else .error e := by
  by_cases h : c <;> simp [requireZk, h]

@[simp]
theorem error_bind {α β : Type} (e : ZkError) (f : α → Except ZkError β) :
    (Except.error e >>= f : Except ZkError β) = .error e := rfl

@[simp]
theorem ok_bind {α β : Type} (a : α) (f : α → Except ZkError β) :
    (Except.ok a >>= f : Except ZkError β) = f a := rfl

@[simp]
theorem ite_bind {α β : Type} (c : Prop) [Decidable c] (A B : Except ZkError α)
    (f : α → Except ZkError β) :
    ((if c then A else B) >>= f) = if c then A >>= f else B >>= f := by
  split_ifs <;> rfl

@[simp]
theorem ite_map {α β : Type} (c : Prop) [Decidable c] (A B : Except ZkError α)
    (f : α → β) :
    (f <$> (if c then A else B)) = if c then f <$> A else f <$> B := by
  split_ifs <;> rfl

@[simp]
theorem error_map {α β : Type} (e : ZkError) (f : α → β) :
    (f <$> (Except.error e : Except ZkError α)) = .error e := rfl

@[simp]
theorem ok_map {α β : Type} (a : α) (f : α → β) :
    (f <$> (Except.ok a : Except ZkError α)) = .ok (f a) := rfl

@[simp]
theorem pure_ok {α : Type} (a : α) :
    (pure a : Except ZkError α) = .ok a := rfl

theorem verify_ok_iff (H : List Nat → List Nat) (s : ChainState) (proof : ZKProof)
    (pi : EventPublicInputs) (s2 : ChainState) :
    verify_ton_event H s proof pi = .ok s2 ↔
      event_checks H s proof pi ∧ s2 = apply_verify s pi := by
  unfold verify_ton_event verify_ton_event_proof validate_public_inputs
    mock_verify_proof event_checks consumedAt
  constructor
  · intro h
    simp only [bind_assoc, requireZk_bind, requireZk_map, error_bind, ok_bind,
      ite_bind, ite_map, error_map, ok_map] at h
    split_ifs at h <;> simp_all
  · rintro ⟨⟨h1, h2, h3, h4, h5, h6, h7, h8, h9⟩, rfl⟩
    simp [bind_assoc, h1, h2, h3, h4, h5, h6, h7, h8, h9]

theorem verify_isOk_iff (H : List Nat → List Nat) (s : ChainState) (proof : ZKProof)
    (pi : EventPublicInputs) :
    (verify_ton_event H s proof pi).isOk = true ↔ event_checks H s proof pi := by
  cases hv : verify_ton_event H s proof pi with
  | ok s2 =>
    have hc := (verify_ok_iff H s proof pi s2).mp hv
    simp [Except.isOk, Except.toBool, hc.1]
  | error e =>
    constructor
    · intro hb
      simp [Except.isOk, Except.toBool] at hb
    · intro hc
      have := (verify_ok_iff H s proof pi (apply_verify s pi)).mpr ⟨hc, rfl⟩
      rw [hv] at this
      cases this

/-- C1: calling `verify_ton_event` twice with identical `(proof,
public_inputs)`, where the first call succeeds, makes the second call
reject with `EventAlreadyConsumed`, and the ledger state after the second
call equals the state after the first (the rejected transaction applies
no effect). -/
theorem verify_event_second_call_rejected (H : List Nat → List Nat)
    (s : ChainState) (proof : ZKProof) (pi : EventPublicInputs)
    (s1 : ChainState) (h : verify_ton_event H s proof pi = .ok s1) :
    verify_ton_event H s1 proof pi = .error .EventAlreadyConsumed ∧
    verify_event_step H s1 proof pi = s1 := by
  obtain ⟨hc, rfl⟩ := (verify_ok_iff H s proof pi s1).mp h
  obtain ⟨h1, h2, h3, h4, h5, h6, h7, h8, h9⟩ := hc
  have herr : verify_ton_event H (apply_verify s pi) proof pi =
      .error .EventAlreadyConsumed := by
    unfold verify_ton_event verify_ton_event_proof validate_public_inputs
      mock_verify_proof
    simp [bind_assoc, apply_verify, Function.update_same,
      h1, h2, h3, h4, h5, h6, h7, h8]
  refine ⟨herr, ?_⟩
  unfold verify_event_step
  rw [herr]

/-- C2: across any sequence of transactions (event verifications, root
updates, slot advances) the `consumed` flag of every nullifier record is
monotone: once `true` it stays `true` after every further operation, so
the `false → true` transition happens at most once and no operation
resets it. -/
theorem consumed_flag_monotone (H : List Nat → List Nat) :
    (∀ (s : ChainState) (op : ChainOp) (n : Bytes),
        consumedAt s n = true → consumedAt (chain_step H s op) n = true) ∧
    (∀ (s : ChainState) (ops : List ChainOp) (n : Bytes),
        consumedAt s n = true → consumedAt (chain_run H s ops) n = true) := by
  have hstep : ∀ (s : ChainState) (op : ChainOp) (n : Bytes),
      consumedAt s n = true → consumedAt (chain_step H s op) n = true := by
    intro s op n hn
    cases op with
    | verifyEvent proof pi =>
      simp only [chain_step, verify_event_step]
      cases hv : verify_ton_event H s proof pi with
      | error e => exact hn
      | ok s2 =>
        obtain ⟨hc, rfl⟩ := (verify_ok_iff H s proof pi s2).mp hv
        by_cases hkey : n = pi.nullifier
        · subst hkey
          simp [consumedAt, apply_verify, Function.update_same]
        · simpa [consumedAt, apply_verify, Function.update_noteq hkey] using hn
    | updateRoot sg r =>
      simp only [chain_step]
      cases update_ton_root s.lc sg r <;> simpa [consumedAt] using hn
    | verifyUpdate sl p =>
      simp only [chain_step]
      cases verify_update s.lc sl p <;> simpa [consumedAt] using hn
  refine ⟨hstep, ?_⟩
  intro s ops
  induction ops generalizing s with
  | nil => intro n hn; exact hn
  | cons op ops ih =>
    intro n hn
    exact ih (chain_step H s op) n (hstep s op n hn)

theorem step_of_error (H : List Nat → List Nat) (s : ChainState) (proof : ZKProof)
    (pi : EventPublicInputs) (e : ZkError)
    (h : verify_ton_event H s proof pi = .error e) :
    verify_event_step H s proof pi = s := by
  unfold verify_event_step
  rw [h]

/-- C4: a `verify_ton_event` call with `amount_in_ton = 0` is rejected,
the transaction applies no state change, and the nullifier record for its
nullifier is not created; more generally every precondition failure rolls
the transaction back to the pre-state with no partial effect. -/
theorem verify_amount_zero_rejected (H : List Nat → List Nat) (s : ChainState)
    (proof : ZKProof) (pi : EventPublicInputs) (hz : pi.amount_in_ton = 0) :
    (∃ e, verify_ton_event H s proof pi = .error e) ∧
    verify_event_step H s proof pi = s ∧
    (verify_event_step H s proof pi).nullifiers pi.nullifier =
      s.nullifiers pi.nullifier ∧
    (∀ (proof2 : ZKProof) (pi2 : EventPublicInputs) (e : ZkError),
        verify_ton_event H s proof2 pi2 = .error e →
        verify_event_step H s proof2 pi2 = s) := by
  have herr : ∃ e, verify_ton_event H s proof pi = .error e := by
    cases hv : verify_ton_event H s proof pi with
    | ok s2 =>
      have hc := ((verify_ok_iff H s proof pi s2).mp hv).1
      have hpos := hc.2.1
      omega
    | error e => exact ⟨e, rfl⟩
  obtain ⟨e, he⟩ := herr
  have hs := step_of_error H s proof pi e he
  exact ⟨⟨e, he⟩, hs, by rw [hs], fun proof2 pi2 e2 h2 => step_of_error H s proof2 pi2 e2 h2⟩

/-- C8: `verify_ton_event` never cross-checks the supplied nullifier
against the `generate_nullifier` derivation: a successful call stays
successful after replacing the nullifier with any other nonzero,
not-yet-consumed value, however unrelated to
`H("NULLIFIER" ∥ ton_tx_hash ∥ ton_sender)`. -/
theorem nullifier_not_cross_checked (H : List Nat → List Nat) (s : ChainState)
    (proof : ZKProof) (pi : EventPublicInputs) (s2 : ChainState) (n2 : Bytes)
    (hok : verify_ton_event H s proof pi = .ok s2)
    (hnz : n2 ≠ zero32) (hfresh : consumedAt s n2 = false) :
    (verify_ton_event H s proof { pi with nullifier := n2 }).isOk = true := by
  obtain ⟨h1, h2, h3, h4, h5, h6, h7, h8, h9⟩ :=
    ((verify_ok_iff H s proof pi s2).mp hok).1
  exact (verify_isOk_iff H s proof _).mpr ⟨h1, h2, h3, h4, h5, h6, hnz, h8, hfresh⟩

/-- C9: `update_ton_root` succeeds exactly when the signer equals the
stored admin or the stored relayer, rejecting with `UnauthorizedRelayer`
otherwise; on success it overwrites `ton_state_root` unconditionally (no
constraint relates the old and new roots) and leaves `admin`, `relayer`,
`last_verified_slot` and `vk_id` unchanged. -/
theorem update_ton_root_auth_frame (s : LcState) (signer new_root : Bytes) :
    ((update_ton_root s signer new_root).isOk = true ↔
      (signer = s.admin ∨ signer = s.relayer)) ∧
    (∀ s2, update_ton_root s signer new_root = .ok s2 →
      s2.ton_state_root = new_root ∧ s2.admin = s.admin ∧
      s2.relayer = s.relayer ∧ s2.last_verified_slot = s.last_verified_slot ∧
      s2.vk_id = s.vk_id) ∧
    (¬ (signer = s.admin ∨ signer = s.relayer) →
      update_ton_root s signer new_root = .error .UnauthorizedRelayer) := by
  unfold update_ton_root
  by_cases h : signer = s.admin ∨ signer = s.relayer <;>
    simp [h, requireZk, Except.isOk, Except.toBool]

theorem enqueue_all_batches (q : QueueManager) (bs : List Batch) :
    (enqueue_all q bs).batches = q.batches ++ bs := by
  induction bs generalizing q with
  | nil => simp [enqueue_all]
  | cons b bs ih =>
    show (enqueue_all (enqueue_batch q b) bs).batches = q.batches ++ b :: bs
    rw [ih]
    simp [enqueue_batch]

theorem drainAux_eq (n : Nat) : ∀ l : List Batch, l.length ≤ n → drainAux n ⟨l⟩ = l := by
  induction n with
  | zero =>
    intro l h
    cases l with
    | nil => rfl
    | cons b rest => simp at h
  | succ n ih =>
    intro l h
    cases l with
    | nil => rfl
    | cons b rest =>
      show b :: drainAux n ⟨rest⟩ = b :: rest
      rw [ih rest (by simpa using Nat.le_of_succ_le_succ h)]

theorem drain_eq (q : QueueManager) : drain q = q.batches :=
  drainAux_eq q.batches.length q.batches le_rfl

/-- C6: the submission queue is FIFO: for any enqueue sequence `xs`, then
one retry re-enqueue of `r`, then further enqueues `ys`, the dequeue order
equals the enqueue order with the retried batch after everything enqueued
before its retry; and dequeuing an empty queue returns `None`. -/
theorem queue_fifo :
    (∀ (xs : List Batch) (r : Batch) (ys : List Batch),
      drain (enqueue_all (enqueue_batch (enqueue_all QueueManager.new xs) r) ys) =
        xs ++ r :: ys) ∧
    (dequeue_batch QueueManager.new).1 = none := by
  constructor
  · intro xs r ys
    rw [drain_eq, enqueue_all_batches]
    show (enqueue_batch (enqueue_all QueueManager.new xs) r).batches ++ ys = _
    rw [enqueue_batch, enqueue_all_batches]
    show ((QueueManager.new.batches ++ xs) ++ [r]) ++ ys = xs ++ r :: ys
    simp [QueueManager.new]
  · rfl

/-- Invariant of the accumulator's reachable states: the configured size is
`k` and any open batch has aligned deposit/proof lists with between 1 and
`k - 1` entries. -/
def bm_inv (k : Nat) (m : BatchManager) : Prop :=
  m.batch_size = k ∧
  ∀ b, m.current_batch = some b →
    b.deposits.length = b.proofs.length ∧ 1 ≤ b.deposits.length ∧
    b.deposits.length < k

/-- Sealed-batch properties an accumulator step guarantees. -/
def sealed_ok (k : Nat) (op : BMOp) (b : Batch) : Prop :=
  b.deposits.length = b.proofs.length ∧ 1 ≤ b.deposits.length ∧
  b.deposits.length ≤ k ∧
  ∀ d p t, op = .add d p t → b.deposits.length = k


theorem bm_step_preserve (k : Nat) (hk : 1 ≤ k) (m : BatchManager) (op : BMOp)
    (h : bm_inv k m) :
    bm_inv k (bm_step m op).2 ∧
    ∀ b, (bm_step m op).1 = some b → sealed_ok k op b := by
  obtain ⟨hsize, hopen⟩ := h
  subst hsize
  cases op with
  | add d p now =>
    cases hcb : m.current_batch with
    | none =>
      simp only [bm_step, add_to_batch, hcb]
      split_ifs with hfull <;>
        simp_all [bm_inv, sealed_ok] <;> omega
    | some batch =>
      obtain ⟨hlen, hlo, hhi⟩ := hopen batch hcb
      simp only [bm_step, add_to_batch, hcb]
      split_ifs with hfull <;>
        simp_all [bm_inv, sealed_ok] <;> omega
  | finalizeNow =>
    simp only [bm_step, finalize_batch]
    refine ⟨⟨rfl, by intro b hb; simp at hb⟩, ?_⟩
    intro b hb
    obtain ⟨hlen, hlo, hhi⟩ := hopen b hb
    exact ⟨hlen, hlo, by omega, by intro d p t ht; cases ht⟩
  | finalizeStale now max_age =>
    cases hcb : m.current_batch with
    | none =>
      simp only [bm_step, finalize_if_stale, hcb]
      exact ⟨⟨rfl, hopen⟩, by intro b hb; simp at hb⟩
    | some batch =>
      obtain ⟨hlen, hlo, hhi⟩ := hopen batch hcb
      simp only [bm_step, finalize_if_stale, hcb]
      split_ifs with hst
      · refine ⟨⟨rfl, by intro b hb; simp at hb⟩, ?_⟩
        intro b hb
        simp only [Option.some.injEq] at hb
        subst hb
        exact ⟨hlen, hlo, by omega, by intro d p t ht; cases ht⟩
      · exact ⟨⟨rfl, hopen⟩, by intro b hb; simp at hb⟩

theorem bm_run_sealed (k : Nat) (hk : 1 ≤ k) :
    ∀ (ops : List BMOp) (m : BatchManager), bm_inv k m →
      ∀ op b, (op, b) ∈ (bm_run m ops).1 → sealed_ok k op b := by
  intro ops
  induction ops with
  | nil => intro m hm op b hb; simp [bm_run] at hb
  | cons o ops ih =>
    intro m hm op b hb
    obtain ⟨hinv2, hout⟩ := bm_step_preserve k hk m o hm
    simp only [bm_run] at hb
    cases hstep : (bm_step m o).1 with
    | none =>
      rw [hstep] at hb
      exact ih (bm_step m o).2 hinv2 op b hb
    | some b2 =>
      rw [hstep] at hb
      simp only [List.mem_cons] at hb
      cases hb with
      | inl heq =>
        injection heq with h1 h2
        subst h1
        subst h2
        exact hout b hstep
      | inr hmem => exact ih (bm_step m o).2 hinv2 op b hmem

/-- C7: for every sequence of accumulator operations starting from a fresh
accumulator with positive `batch_size = k`, every sealed batch has
index-aligned deposits and proofs with `1 ≤ len ≤ k`, every batch sealed
by `add_to_batch` itself has exactly `k` deposits, and sealing (by any
operation, from any accumulator state) always clears the open-batch slot. -/
theorem accumulator_sealed_invariants (k : Nat) (hk : 1 ≤ k) :
    (∀ (ops : List BMOp) (op : BMOp) (b : Batch),
        (op, b) ∈ (bm_run (BatchManager.new k) ops).1 →
        b.deposits.length = b.proofs.length ∧ 1 ≤ b.deposits.length ∧
        b.deposits.length ≤ k ∧
        ∀ d p t, op = .add d p t → b.deposits.length = k) ∧
    (∀ (m : BatchManager) (op : BMOp) (b : Batch),
        (bm_step m op).1 = some b → (bm_step m op).2.current_batch = none) := by
  constructor
  · intro ops op b hmem
    have hinv : bm_inv k (BatchManager.new k) :=
      ⟨rfl, by intro b2 hb2; simp [BatchManager.new] at hb2⟩
    exact bm_run_sealed k hk ops (BatchManager.new k) hinv op b hmem
  · intro m op b hb
    cases op with
    | add d p now =>
      cases hcb : m.current_batch with
      | none =>
        simp only [bm_step, add_to_batch, hcb] at hb ⊢
        split_ifs at hb ⊢ <;> simp_all
      | some batch =>
        simp only [bm_step, add_to_batch, hcb] at hb ⊢
        split_ifs at hb ⊢ <;> simp_all
    | finalizeNow => rfl
    | finalizeStale now max_age =>
      cases hcb : m.current_batch with
      | none => simp [bm_step, finalize_if_stale, hcb] at hb
      | some batch =>
        simp only [bm_step, finalize_if_stale, hcb] at hb ⊢
        split_ifs at hb ⊢ <;> simp_all

theorem fold_mark_failed (l : List Deposit) (db : String → DepositStatus)
    (msg : String) (x : String) :
    (l.foldl (fun db d => update_deposit_status db d.deposit_id "failed" (some msg)) db) x =
      if x ∈ l.map (fun d => d.deposit_id) then ⟨"failed", some msg⟩ else db x := by
  induction l generalizing db with
  | nil => simp
  | cons d l ih =>
    simp only [List.foldl_cons, List.map_cons, List.mem_cons]
    rw [ih]
    by_cases hx : x ∈ l.map (fun d => d.deposit_id)
    · simp [hx]
    · by_cases hd : x = d.deposit_id <;> simp [hx, hd, update_deposit_status]

theorem fail_run_succ (maxR : Nat) (err : String) (n : Nat) (st : SubState) :
    fail_run maxR err (n + 1) st =
      fail_tick maxR (fail_run maxR err n st) err := by
  induction n generalizing st with
  | zero => rfl
  | succ n ih =>
    show fail_run maxR err (n + 1) (fail_tick maxR st err) = _
    rw [ih]
    rfl

/-- C5 (amended): with a single always-failing batch (initial
`retry_count = 0`) in the queue, after `k ≤ max_retries` failed
submissions the batch sits re-enqueued with `retry_count = k` and no
deposit status has changed; the `max_retries + 1`'th failure (the initial
attempt plus the `max_retries` retries) removes the batch for good and
marks every contained deposit failed with the terminating error recorded;
no later tick changes anything, so the batch is re-enqueued exactly
`max_retries` times and never a `max_retries + 1`'th time; and retry
eligibility is the pure test `should_retry rc = (rc < max_retries)`. -/
theorem retry_exhaustion (maxR : Nat) (b : Batch) (err : String)
    (db0 : String → DepositStatus) (hrc : b.retry_count = 0) :
    (∀ k, k ≤ maxR →
      fail_run maxR err k ⟨⟨[b]⟩, db0⟩ =
        ⟨⟨[{ b with retry_count := k }]⟩, db0⟩) ∧
    ((fail_run maxR err (maxR + 1) ⟨⟨[b]⟩, db0⟩).queue.batches = [] ∧
      ∀ d ∈ b.deposits,
        (fail_run maxR err (maxR + 1) ⟨⟨[b]⟩, db0⟩).db d.deposit_id =
          ⟨"failed", some ("Max retries exceeded: " ++ err)⟩) ∧
    (∀ n, fail_run maxR err (maxR + 1 + n) ⟨⟨[b]⟩, db0⟩ =
      fail_run maxR err (maxR + 1) ⟨⟨[b]⟩, db0⟩) ∧
    (∀ (r : RetryEngine) (rc : Nat),
      r.should_retry rc = decide (rc < r.max_retries)) := by
  have hb0 : ({ b with retry_count := 0 } : Batch) = b := by
    cases b
    simp_all
  have hpart1 : ∀ k, k ≤ maxR →
      fail_run maxR err k ⟨⟨[b]⟩, db0⟩ =
        ⟨⟨[{ b with retry_count := k }]⟩, db0⟩ := by
    intro k
    induction k with
    | zero => intro _; simp [fail_run, hb0]
    | succ k ih =>
      intro hk
      rw [fail_run_succ, ih (by omega)]
      simp only [fail_tick, dequeue_batch, handle_batch_submission_failure,
        RetryEngine.should_retry]
      have : (decide (k < maxR)) = true := by simp; omega
      simp [this, enqueue_batch]
  have hfail : fail_run maxR err (maxR + 1) ⟨⟨[b]⟩, db0⟩ =
      ⟨⟨[]⟩, b.deposits.foldl
        (fun db d => update_deposit_status db d.deposit_id "failed"
          (some ("Max retries exceeded: " ++ err))) db0⟩ := by
    rw [fail_run_succ, hpart1 maxR le_rfl]
    simp only [fail_tick, dequeue_batch, handle_batch_submission_failure,
      RetryEngine.should_retry]
    have : (decide (maxR < maxR)) = false := by simp
    simp [this]
  refine ⟨hpart1, ⟨?_, ?_⟩, ?_, ?_⟩
  · rw [hfail]
  · intro d hd
    rw [hfail]
    simp only
    rw [fold_mark_failed]
    have : d.deposit_id ∈ b.deposits.map (fun d => d.deposit_id) :=
      List.mem_map_of_mem _ hd
    simp [this]
  · intro n
    induction n with
    | zero => rfl
    | succ n ih =>
      have : maxR + 1 + (n + 1) = (maxR + 1 + n) + 1 := by omega
      rw [this, fail_run_succ, ih, hfail]
      rfl
  · intro r rc
    rfl

/-- C10: `Clone` of a `SubmissionManager` rebuilds the batch accumulator
fresh from `config.batch_size` — its open-batch slot is empty no matter
what the original holds — and copies the queue by value, so enqueuing on
the clone extends only the clone's queue; the background loop of
`start_batch_processing` operates on exactly such a clone. -/
theorem clone_fresh_accumulator (m : SubmissionManager) (b : Batch) :
    m.clone.batch_manager = BatchManager.new m.config.batch_size ∧
    m.clone.batch_manager.current_batch = none ∧
    m.clone.queue_manager = m.queue_manager ∧
    start_batch_processing m = m.clone ∧
    (m.clone.enqueue b).queue_manager.batches = m.queue_manager.batches ++ [b] :=
  ⟨rfl, rfl, rfl, rfl, rfl⟩

theorem leBytes_length (n v : Nat) : (leBytes n v).length = n := by
  induction n generalizing v with
  | zero => rfl
  | succ n ih => simp [leBytes, ih]

theorem leBytes_inj (n : Nat) : ∀ v w : Nat, v < 256 ^ n → w < 256 ^ n →
    leBytes n v = leBytes n w → v = w := by
  induction n with
  | zero =>
    intro v w hv hw _
    simp [pow_zero] at hv hw
    omega
  | succ n ih =>
    intro v w hv hw h
    simp only [leBytes, List.cons.injEq] at h
    obtain ⟨h1, h2⟩ := h
    have hv2 : v / 256 < 256 ^ n := by
      have : v < 256 ^ n * 256 := by rw [← pow_succ]; exact hv
      omega
    have hw2 : w / 256 < 256 ^ n := by
      have : w < 256 ^ n * 256 := by rw [← pow_succ]; exact hw
      omega
    have := ih (v / 256) (w / 256) hv2 hw2 h2
    omega

theorem event_preimage_inj
    (t1 r1 d1 t2 r2 d2 : Bytes) (a1 f1 k1 a2 f2 k2 : Nat)
    (ht1 : t1.length = 32) (ht2 : t2.length = 32)
    (hr1 : r1.length = 32) (hr2 : r2.length = 32)
    (ha1 : a1 < 256 ^ 8) (ha2 : a2 < 256 ^ 8)
    (hf1 : f1 < 256 ^ 2) (hf2 : f2 < 256 ^ 2)
    (hk1 : k1 < 256 ^ 4) (hk2 : k2 < 256 ^ 4)
    (h : event_preimage t1 a1 r1 f1 k1 d1 = event_preimage t2 a2 r2 f2 k2 d2) :
    t1 = t2 ∧ a1 = a2 ∧ r1 = r2 ∧ f1 = f2 ∧ k1 = k2 ∧ d1 = d2 := by
  unfold event_preimage at h
  simp only [List.append_assoc] at h
  have h0 := (List.append_inj h rfl).2
  have h1 := List.append_inj h0 (ht1.trans ht2.symm)
  have h2 := List.append_inj h1.2 (by rw [leBytes_length, leBytes_length])
  have h3 := List.append_inj h2.2 (hr1.trans hr2.symm)
  have h4 := List.append_inj h3.2 (by rw [leBytes_length, leBytes_length])
  have h5 := List.append_inj h4.2 (by rw [leBytes_length, leBytes_length])
  exact ⟨h1.1, leBytes_inj 8 a1 a2 ha1 ha2 h2.1, h3.1,
    leBytes_inj 2 f1 f2 hf1 hf2 h4.1, leBytes_inj 4 k1 k2 hk1 hk2 h5.1, h5.2⟩

theorem verify_error_mem (H : List Nat → List Nat) (s : ChainState)
    (proof : ZKProof) (pi : EventPublicInputs) (e : ZkError)
    (h : verify_ton_event H s proof pi = .error e) :
    AuthenticityError e ∨
      (e = .EventAlreadyConsumed ∧
        pi.event_id = hash_event_components H pi.token_id pi.amount_in_ton
          pi.recipient_solana pi.fee_bps pi.vk_version pi.domain) := by
  unfold verify_ton_event verify_ton_event_proof validate_public_inputs
    mock_verify_proof at h
  simp only [bind_assoc, requireZk_bind, requireZk_map, error_bind, ok_bind,
    ite_bind, ite_map, error_map, ok_map, pure_ok] at h
  split_ifs at h with h1 h2 h3 h4 h5 h6 h7 h8 h9
  all_goals first
    | (injection h with he; subst he;
        first
          | (left; unfold AuthenticityError; decide)
          | (right; exact ⟨rfl, by assumption⟩))
    | cases h

/-- C3 (amended): `verify_ton_event` accepts public inputs only when
`event_id` equals the recomputed domain-separated hash over exactly
`token_id`, `amount`, `recipient`, `fee_bps`, `vk_version` and `domain` —
the preimage label being the source's `"TON_EVENT"`, not the spec's
`"EVENT"` — and, for an injective (collision-free) hash, mutating any
bound field of accepted well-formed inputs without updating `event_id`
makes the call reject with an authenticity error. -/
theorem event_id_binding (H : List Nat → List Nat) (hInj : Function.Injective H)
    (s : ChainState) (proof : ZKProof) (pi pi2 : EventPublicInputs)
    (hwf : WFInputs pi) (hwf2 : WFInputs pi2)
    (hok : (verify_ton_event H s proof pi).isOk = true)
    (hdiff : boundFields pi2 ≠ boundFields pi)
    (hid : pi2.event_id = pi.event_id) :
    pi.event_id = hash_event_components H pi.token_id pi.amount_in_ton
      pi.recipient_solana pi.fee_bps pi.vk_version pi.domain ∧
    ∃ e, verify_ton_event H s proof pi2 = .error e ∧ AuthenticityError e := by
  obtain ⟨h1, h2, h3, h4, h5, h6, h7, h8, h9⟩ :=
    (verify_isOk_iff H s proof pi).mp hok
  obtain ⟨hwt, hwr, hwd, hwa, hwf1, hwk⟩ := hwf
  obtain ⟨hwt2, hwr2, hwd2, hwa2, hwf22, hwk2⟩ := hwf2
  have hneq : pi2.event_id ≠ hash_event_components H pi2.token_id
      pi2.amount_in_ton pi2.recipient_solana pi2.fee_bps pi2.vk_version
      pi2.domain := by
    rw [hid, h5]
    unfold hash_event_components
    intro heq
    have hpre := hInj heq
    obtain ⟨e1, e2, e3, e4, e5, e6⟩ := event_preimage_inj
      pi.token_id pi.recipient_solana pi.domain
      pi2.token_id pi2.recipient_solana pi2.domain
      pi.amount_in_ton pi.fee_bps pi.vk_version
      pi2.amount_in_ton pi2.fee_bps pi2.vk_version
      hwt hwt2 hwr hwr2 hwa hwa2 hwf1 hwf22 hwk hwk2 hpre
    exact hdiff (by simp [boundFields, e1, e2, e3, e4, e5, e6])
  refine ⟨h5, ?_⟩
  cases hv : verify_ton_event H s proof pi2 with
  | ok s2 =>
    have hc2 := ((verify_ok_iff H s proof pi2 s2).mp hv).1
    exact absurd hc2.2.2.2.2.1 hneq
  | error e =>
    cases verify_error_mem H s proof pi2 e hv with
    | inl hauth => exact ⟨e, rfl, hauth⟩
    | inr hcons => exact absurd hcons.2 hneq

/-- Witness for C1 at a concrete state: the first verification of `pi0`
succeeds and the identical second call is rejected without effect. -/
theorem verify_event_second_call_rejected_witness :
    verify_ton_event id post0 proof0 pi0 = .error .EventAlreadyConsumed ∧
    verify_event_step id post0 proof0 pi0 = post0 :=
  verify_event_second_call_rejected id s0 proof0 pi0 post0 rfl

/-- Witness for C2: a consumed record stays consumed across a root update. -/
theorem consumed_flag_monotone_witness :
    consumedAt (chain_run id s0c [ChainOp.updateRoot adminPk dom0]) nul0 = true :=
  (consumed_flag_monotone id).2 s0c [ChainOp.updateRoot adminPk dom0] nul0 (by decide)

/-- Counterexample for C3 as stated: an input the program accepts whose
`event_id` does not equal the specification's
`H("EVENT" ∥ token_id ∥ amount ∥ recipient ∥ fee_bps ∥ vk_version ∥ domain)`
formula — the source hashes the label `"TON_EVENT"`, not `"EVENT"`
(hash instantiated as the identity on the preimage bytes). -/
theorem event_id_spec_label_counterexample :
    (verify_ton_event id s0 proof0 pi0).isOk = true ∧
    pi0.event_id ≠ spec_event_hash id pi0.token_id pi0.amount_in_ton
      pi0.recipient_solana pi0.fee_bps pi0.vk_version pi0.domain := by
  constructor <;> decide

/-- Witness for C3 (amended): mutating the amount of accepted inputs
while keeping `event_id` is rejected with an authenticity error. -/
theorem event_id_binding_witness :
    pi0.event_id = hash_event_components id pi0.token_id pi0.amount_in_ton
      pi0.recipient_solana pi0.fee_bps pi0.vk_version pi0.domain ∧
    ∃ e, verify_ton_event id s0 proof0 pi0m = .error e ∧ AuthenticityError e :=
  event_id_binding id Function.injective_id s0 proof0 pi0 pi0m
    (by decide) (by decide) (by decide) (by decide) rfl

/-- Witness for C4: the concrete zero-amount call is rejected with no
state change. -/
theorem verify_amount_zero_rejected_witness :
    (∃ e, verify_ton_event id s0 proof0 pi0z = .error e) ∧
    verify_event_step id s0 proof0 pi0z = s0 ∧
    (verify_event_step id s0 proof0 pi0z).nullifiers pi0z.nullifier =
      s0.nullifiers pi0z.nullifier ∧
    (∀ (proof2 : ZKProof) (pi2 : EventPublicInputs) (e : ZkError),
        verify_ton_event id s0 proof2 pi2 = .error e →
        verify_event_step id s0 proof2 pi2 = s0) :=
  verify_amount_zero_rejected id s0 proof0 pi0z rfl

/-- Counterexample for C5 as stated: with `max_retries = 1`, after the
batch has failed submission once — that is, `max_retries` times — no
deposit is marked failed and the batch is re-enqueued with
`retry_count = 1` rather than transitioned to failed. -/
theorem retry_exhaustion_counterexample :
    (fail_run 1 "boom" 1 ⟨⟨[b1]⟩, db0c⟩).db "d1" = ⟨"pending", none⟩ ∧
    (fail_run 1 "boom" 1 ⟨⟨[b1]⟩, db0c⟩).queue.batches =
      [{ b1 with retry_count := 1 }] := by
  constructor <;> rfl

/-- Witness for C5 (amended): with `max_retries = 1` the queue is empty
after the second (that is, `max_retries + 1`'th) failure. -/
theorem retry_exhaustion_witness :
    (fail_run 1 "boom" 2 ⟨⟨[b1]⟩, db0c⟩).queue.batches = [] :=
  (retry_exhaustion 1 b1 "boom" db0c rfl).2.1.1

/-- Witness for C7: from a fresh accumulator with `batch_size = 2`, the
batch sealed by the second `add` has two aligned deposits and proofs. -/
theorem accumulator_sealed_invariants_witness :
    b2x.deposits.length = b2x.proofs.length ∧ 1 ≤ b2x.deposits.length ∧
    b2x.deposits.length ≤ 2 ∧
    ∀ d p t, BMOp.add d2 "p2" 5 = BMOp.add d p t → b2x.deposits.length = 2 :=
  (accumulator_sealed_invariants 2 (by decide)).1 ops0 (BMOp.add d2 "p2" 5) b2x
    (by decide)

/-- Witness for C8: a nullifier unrelated to the
`H("NULLIFIER" ∥ tx ∥ sender)` derivation is still accepted. -/
theorem nullifier_not_cross_checked_witness :
    nul1 ≠ generate_nullifier id pi0.ton_tx_hash pi0.ton_sender ∧
    (verify_ton_event id s0 proof0 { pi0 with nullifier := nul1 }).isOk = true :=
  ⟨by decide,
    nullifier_not_cross_checked id s0 proof0 pi0 post0 nul1 rfl (by decide) (by decide)⟩

/-- Witness for C9 at a concrete state and admin signer. -/
theorem update_ton_root_auth_frame_witness :
    ((update_ton_root lc0 adminPk dom0).isOk = true ↔
      (adminPk = lc0.admin ∨ adminPk = lc0.relayer)) ∧
    (∀ s2, update_ton_root lc0 adminPk dom0 = .ok s2 →
      s2.ton_state_root = dom0 ∧ s2.admin = lc0.admin ∧
      s2.relayer = lc0.relayer ∧ s2.last_verified_slot = lc0.last_verified_slot ∧
      s2.vk_id = lc0.vk_id) ∧
    (¬ (adminPk = lc0.admin ∨ adminPk = lc0.relayer) →
      update_ton_root lc0 adminPk dom0 = .error .UnauthorizedRelayer) :=
  update_ton_root_auth_frame lc0 adminPk dom0
